import Mathlib

/-!
Verification of the shielded-payment client library core (Sapling primitives,
transaction builder, block scanner) against its natural-language specification.

The development is a shallow embedding of the three source modules:
  - sapling-crypto/src/primitives/mod.rs   (ViewingKey.ivk, Note.cm_full_point, Note.nf)
  - zcash_client_backend/src/transaction.rs (Builder: new/set_fee/add_sapling_spend/
      add_sapling_output/build/build_no_sign)
  - zcash_client_backend/src/welding_rig/mod.rs (trial_decrypt, scan_output)

External collaborators (curve arithmetic on Jubjub, Pedersen hash, group hash,
BLAKE2s, RedJubjub signatures, the Groth16 prover, ZIP-32 derivation, the note
encryptor and the sighash) are exactly the interfaces the specification declares
out of scope; they are modelled as an abstract oracle record `Ext`, with their
documented contracts (32-byte canonical encodings, 32-byte BLAKE2s output)
collected in the predicate `ExtWF`.

Machine integers follow the source's Rust semantics: `u64` values are naturals
taken modulo 2^64 at each cast, `i64` values are integers wrapped into
[-2^63, 2^63) by `wrap64` at each arithmetic step (`as` casts in Rust always
wrap; this matches release-mode `+=`/`-=` as well).
-/

namespace Librustzcash

/-- Two's-complement wrap of an integer into the `i64` range [-2^63, 2^63). -/
def wrap64 (x : Int) : Int :=
  (x + 9223372036854775808) % 18446744073709551616 - 9223372036854775808

/-- Rust's `v as i64` on a `u64` value: reinterpret modulo 2^64. -/
def i64ofU64 (v : Nat) : Int := wrap64 (v : Int)

/-- Rust's `x as u64` on an `i64` value: reinterpret modulo 2^64. -/
def u64ofI64 (x : Int) : Nat := (x % 18446744073709551616).toNat

theorem wrap64_wrap64 (x : Int) : wrap64 (wrap64 x) = wrap64 x := by
  unfold wrap64; omega

theorem wrap64_add_left (x y : Int) : wrap64 (wrap64 x + y) = wrap64 (x + y) := by
  unfold wrap64; omega

theorem wrap64_i64ofU64_add (x y : Int) (v : Nat) :
    wrap64 (x + i64ofU64 v + y) = wrap64 (x + (v : Int) + y) := by
  unfold i64ofU64 wrap64; omega

/-- Little-endian interpretation of a byte string as a natural number. -/
def leRead (l : List Nat) : Nat :=
  l.foldr (fun b acc => b + 256 * acc) 0

/-- Little-endian encoding of a `u64` as 8 bytes (`write_u64::<LittleEndian>`). -/
def u64LE (v : Nat) : List Nat :=
  (List.range 8).map (fun i => v / 256 ^ i % 256)

/-- The LSB-first bit expansion the note-commitment code applies to each byte:
`(0..8).map(|i| ((byte >> i) & 1) == 1)`, flat-mapped over the byte string. -/
def bytesToBits (l : List Nat) : List Bool :=
  l.flatMap (fun b => (List.range 8).map (fun i => b / 2 ^ i % 2 == 1))

/-- Order of the BLS12-381 scalar field `Fr` (coordinates of Jubjub points,
note-commitment x-coordinates, anchors). -/
def frModulus : Nat :=
  52435875175126190479447740508185965837690552500527637822603658699938581184513

/-- Order of the Jubjub scalar field `Fs` (orders of prime-subgroup points;
the codomain of `ivk`). -/
def fsModulus : Nat :=
  6554484396890773809930967563523245729705921265872317281365359162392183254199

/-- `Fs::from_repr`: a 256-bit little-endian integer parses as an `Fs` element
exactly when it is below the field order. -/
def fsFromRepr (n : Nat) : Option Nat :=
  if n < fsModulus then some n else none

/-- `b"Zcash_gd"` — key-diversification (group hash) personalization. -/
def gdPersonalization : List Nat := [90, 99, 97, 115, 104, 95, 103, 100]

/-- `b"Zcashivk"` — CRH_IVK personalization. -/
def ivkPersonalization : List Nat := [90, 99, 97, 115, 104, 105, 118, 107]

/-- `b"Zcash_nf"` — PRF_NF personalization. -/
def nfPersonalization : List Nat := [90, 99, 97, 115, 104, 95, 110, 102]

/-- The fixed-generator table labels of the Jubjub parameter set. -/
inductive FixedGenerators where
  | ValueCommitmentValue
  | ValueCommitmentRandomness
  | ProofGenerationKey
  | SpendingKeyGenerator
  | NoteCommitmentRandomness
  | NullifierPosition
deriving DecidableEq

/-- Pedersen-hash personalization (`Personalization::NoteCommitment` is the one
used by `cm_full_point`). -/
inductive PedersenPersonalization where
  | NoteCommitment
  | MerkleTree (depth : Nat)
deriving DecidableEq

/-- ZIP-32 child index. -/
inductive ChildIndex where
  | hardened (n : Nat)
  | nonHardened (n : Nat)
deriving DecidableEq

/-- `ProofGenerationKey`: spend-auth public point `ak` and the secret
nullifier-deriving scalar `nsk` (an `Fs` representative). -/
structure ProofGenerationKey (P : Type) where
  ak : P
  nsk : Nat
deriving DecidableEq

/-- `ViewingKey`: `ak` and `nk = nsk · G_PGK`. -/
structure ViewingKey (P : Type) where
  ak : P
  nk : P
deriving DecidableEq

/-- `PaymentAddress`: diversified transmission key and 11-byte diversifier. -/
structure PaymentAddress (P : Type) where
  pk_d : P
  diversifier : List Nat
deriving DecidableEq

/-- `Note`: value (u64), diversified base, transmission key, commitment
randomness (`Fs` representative). -/
structure Note (P : Type) where
  value : Nat
  g_d : P
  pk_d : P
  r : Nat
deriving DecidableEq

/-- A realized Merkle path (`CommitmentTreeWitness`): the note's leaf position
and its authentication path. -/
structure CommitmentTreeWitness where
  position : Nat
  authPath : List (Option (Nat × Bool))
deriving DecidableEq

/-- An `IncrementalWitness` as the builder consumes it: its root (an `Fr`
representative, via `witness.root().into()`) and the result of materializing
the path (`witness.path()`, which can fail). -/
structure IncrementalWitness where
  root : Nat
  path : Option CommitmentTreeWitness
deriving DecidableEq

/-- A Sapling `SpendDescription` of the in-progress transaction. -/
structure SpendDesc (P Pr S : Type) where
  cv : P
  anchor : Nat
  nullifier : List Nat
  rk : P
  zkproof : Pr
  spend_auth_sig : S
deriving DecidableEq

/-- A Sapling `OutputDescription` of the in-progress transaction. -/
structure OutputDesc (P Pr : Type) where
  cv : P
  cmu : Nat
  ephemeral_key : P
  enc_ciphertext : List Nat
  out_ciphertext : List Nat
  zkproof : Pr
deriving DecidableEq

/-- The shielded part of `TransactionData` (the only part this code touches:
value balance, spend and output descriptions, binding signature). -/
structure TransactionData (P Pr S : Type) where
  value_balance : Int
  shielded_spends : List (SpendDesc P Pr S)
  shielded_outputs : List (OutputDesc P Pr)
  binding_sig : Option S
deriving DecidableEq

/-- The external-interface record (spec §6): Jubjub point operations, hashes,
ZIP-32 derivation, the injected prover, the note encryptor, signatures, the
sighash, the compact-note decryption oracle, and the RNG stream. All of these
are outside the three source modules; the source only composes them. -/
structure Ext where
  Point : Type
  UPoint : Type
  Xsk : Type
  Ovk : Type
  Proof : Type
  Sig : Type
  Ctx : Type
  Enc : Type
  Memo : Type
  -- Jubjub (prime-order subgroup) operations and the fixed-generator table
  add : Point → Point → Point
  mul : Point → Nat → Point
  gen : FixedGenerators → Point
  -- canonical 32-byte point encoding (`Point::write`)
  enc : Point → List Nat
  -- affine x-coordinate in Fr (`into_xy().0`)
  xCoord : Point → Nat
  -- `edwards::Point::read` (point of unknown order) and `as_prime_order`
  readPoint : List Nat → Option UPoint
  asPrimeOrder : UPoint → Option Point
  -- `group_hash(tag, personalization, params)`
  groupHash : List Nat → List Nat → Option Point
  -- `pedersen_hash(personalization, bits, params)`
  pedersen : PedersenPersonalization → List Bool → Point
  -- BLAKE2s, 32-byte output mode, empty key: (personalization, input) ↦ digest
  blake2s : List Nat → List Nat → List Nat
  -- ZIP-32: `ExtendedSpendingKey::from_path`,
  -- `ExtendedFullViewingKey::from(&xsk).fvk.ovk`,
  -- `xsk.expsk.proof_generation_key(&JUBJUB)`, `xsk.expsk.ask`
  fromPath : Xsk → List ChildIndex → Xsk
  ovkOf : Xsk → Ovk
  pgkOf : Xsk → ProofGenerationKey Point
  askOf : Xsk → Nat
  -- the injected `TxProver` and `SaplingProvingContext`
  ctxNew : Ctx
  spendProof : Ctx → ProofGenerationKey Point → List Nat → Nat → Nat → Nat → Nat →
    CommitmentTreeWitness → Option (Ctx × Proof × Point × Point)
  outputProof : Ctx → Nat → PaymentAddress Point → Nat → Nat → Ctx × Proof × Point
  bindingSig : Ctx → Int → List Nat → Option Sig
  -- `SaplingNoteEncryption` (its internal `esk` comes from the RNG sample)
  mkEnc : Ovk → Note Point → PaymentAddress Point → Memo → Nat → Enc
  eskOf : Enc → Nat
  epkOf : Enc → Point
  encryptNotePlaintext : Enc → List Nat
  encryptOutgoingPlaintext : Enc → Point → Nat → List Nat
  -- `Memo::default()` (`memo.unwrap_or_default()`)
  defaultMemo : Memo
  -- `signature_hash_data(mtx, branch_id, SIGHASH_ALL, None)` and `spend_sig`
  sigHash : TransactionData Point Proof Sig → Nat → List Nat
  spendSig : Nat → Nat → List Nat → Sig
  blankSig : Sig
  -- `try_sapling_compact_note_decryption(ivk, epk, cmu, ct)`, reduced to the
  -- recovered note value as `trial_decrypt` uses it
  decrypt : Nat → Point → Nat → List Nat → Option Nat
  -- the OsRng stream of Fs samples, indexed by draw position
  rand : Nat → Nat

/-- Contracts of the external interfaces (spec §6): encodings and BLAKE2s
digests are 32 bytes of genuine bytes. -/
structure ExtWF (E : Ext) : Prop where
  blake_len : ∀ p m, (E.blake2s p m).length = 32
  blake_lt : ∀ p m, ∀ b ∈ E.blake2s p m, b < 256
  enc_len : ∀ p, (E.enc p).length = 32
  enc_lt : ∀ p, ∀ b ∈ E.enc p, b < 256

/-! ## Sapling primitives (sapling-crypto/src/primitives/mod.rs) -/

/-- `ProofGenerationKey::into_viewing_key`: `nk = nsk·G_PGK`, `ak` cloned. -/
def intoViewingKey (E : Ext) (pgk : ProofGenerationKey E.Point) : ViewingKey E.Point :=
  { ak := pgk.ak, nk := E.mul (E.gen FixedGenerators.ProofGenerationKey) pgk.nsk }

/-- `h[31] &= 0b0000_0111` on the 32-byte digest: clear the high five bits of
the last byte (on a byte, masking with 7 is reduction mod 8). -/
def maskIvkBytes (h : List Nat) : List Nat :=
  h.set 31 (h.getD 31 0 % 8)

/-- `ViewingKey::ivk`: BLAKE2s-256 ("Zcashivk", empty key) over
`ak_enc(32) || nk_enc(32)`, high five bits of byte 31 cleared, read
little-endian. The source then runs `Fs::from_repr(..).expect(..)`; the
theorem for C5 proves the parse always succeeds, so the value itself is the
canonical representative. -/
def ivk (E : Ext) (vk : ViewingKey E.Point) : Nat :=
  leRead (maskIvkBytes (E.blake2s ivkPersonalization (E.enc vk.ak ++ E.enc vk.nk)))

/-- `Note::cm_full_point`: `r·G_NC + PedersenHash(NoteCommitment,
bits(value_LE_64 || g_d_enc || pk_d_enc))`. -/
def cmFullPoint (E : Ext) (n : Note E.Point) : E.Point :=
  let noteContents := u64LE n.value ++ E.enc n.g_d ++ E.enc n.pk_d
  let hashOfContents := E.pedersen PedersenPersonalization.NoteCommitment (bytesToBits noteContents)
  E.add (E.mul (E.gen FixedGenerators.NoteCommitmentRandomness) n.r) hashOfContents

/-- `Note::nf`: `rho = cm_full_point + position·G_NP`;
`nf = BLAKE2s("Zcash_nf", nk_enc || rho_enc)`. -/
def nf (E : Ext) (n : Note E.Point) (vk : ViewingKey E.Point) (position : Nat) : List Nat :=
  let rho := E.add (cmFullPoint E n) (E.mul (E.gen FixedGenerators.NullifierPosition) position)
  E.blake2s nfPersonalization (E.enc vk.nk ++ E.enc rho)

/-- `Note::cm`: affine x-coordinate of the full commitment point. -/
def noteCm (E : Ext) (n : Note E.Point) : Nat :=
  E.xCoord (cmFullPoint E n)

/-! ## Transaction builder (zcash_client_backend/src/transaction.rs) -/

/-- Builder-internal record of one spend (`SpendDescriptionInfo`); `witness`
is the already-realized `CommitmentTreeWitness`. -/
structure SpendDescriptionInfo (E : Ext) where
  account_id : Nat
  diversifier : List Nat
  note : Note E.Point
  ar : Nat
  witness : CommitmentTreeWitness

/-- Builder-internal record of one output (`OutputDescriptionInfo`). -/
structure OutputDescriptionInfo (E : Ext) where
  ovk : E.Ovk
  -- the source names this field `to`, a reserved token here
  toAddr : PaymentAddress E.Point
  note : Note E.Point
  memo : E.Memo

/-- The `Builder` state. Of the embedded `mtx : TransactionData`, only
`value_balance` is touched before `build` (the private shielded-spend and
shielded-output vectors stay empty until `build` fills them), so it is carried
here directly. `rngPos` indexes the ambient OsRng stream of `Fs` samples. -/
structure Builder (E : Ext) where
  coin_type : Nat
  fee : Int
  value_balance : Int
  anchor : Option Nat
  spends : List (SpendDescriptionInfo E)
  outputs : List (OutputDescriptionInfo E)
  change_address : Option (E.Ovk × PaymentAddress E.Point)
  rngPos : Nat

/-- The builder's error taxonomy; each constructor is one `format_err!` site. -/
inductive BuildError where
  | anchorMismatch (expected got : Nat)
  | witnessPath
  | invalidTargetAddress
  | changeNegative (change : Int)
  | noChangeAddress
  | proverFailure
  | bindingSigFailed
deriving DecidableEq

/-- The message of the `ChangeNegative` error:
`format_err!("Change is negative: {}", change)`. -/
def changeNegativeMessage (change : Int) : String :=
  "Change is negative: " ++ toString change

/-- Result of `build`, with `.panicked` for `expect`/`unwrap` aborts. -/
inductive BuildResult (α : Type) where
  | ok (a : α)
  | err (e : BuildError)
  | panicked (msg : String)
deriving DecidableEq

/-- `Builder::new(coin_type)`: empty transaction, default fee 10000 zatoshi,
no anchor, no change address. -/
def Builder.new (E : Ext) (coin_type : Nat) : Builder E :=
  { coin_type, fee := 10000, value_balance := 0, anchor := none,
    spends := [], outputs := [], change_address := none, rngPos := 0 }

/-- `Builder::set_fee`. -/
def setFee (E : Ext) (b : Builder E) (fee : Int) : Builder E :=
  { b with fee }

/-- Shared tail of `add_sapling_spend` after the anchor logic: bump the value
balance by `note.value as i64`, then realize the witness path and push; a path
failure leaves the balance (and any recorded anchor) mutated. -/
def addSpendCore (E : Ext) (b : Builder E) (account_id : Nat) (d : List Nat)
    (note : Note E.Point) (ar : Nat) (w : IncrementalWitness) :
    Builder E × Option BuildError :=
  let b1 := { b with value_balance := wrap64 (b.value_balance + i64ofU64 note.value) }
  match w.path with
  | none => (b1, some BuildError.witnessPath)
  | some p =>
    ({ b1 with spends := b1.spends ++ [⟨account_id, d, note, ar, p⟩] }, none)

/-- `Builder::add_sapling_spend`: all witness roots must match the first; a
mismatch returns early (state untouched), otherwise the first root is
recorded as the anchor and the spend is accumulated. -/
def addSaplingSpend (E : Ext) (b : Builder E) (account_id : Nat) (d : List Nat)
    (note : Note E.Point) (ar : Nat) (w : IncrementalWitness) :
    Builder E × Option BuildError :=
  match b.anchor with
  | some anchor =>
    if w.root ≠ anchor then
      (b, some (BuildError.anchorMismatch anchor w.root))
    else
      addSpendCore E b account_id d note ar w
  | none =>
    addSpendCore E { b with anchor := some w.root } account_id d note ar w

/-- `Builder::add_sapling_output`: check the target's `g_d`, sample `rcm`,
decrement the value balance by `value` (an `i64` amount), build the note with
`value as u64`, push with `memo.unwrap_or_default()`. -/
def addSaplingOutput (E : Ext) (b : Builder E) (ovk : E.Ovk)
    (target : PaymentAddress E.Point) (value : Int) (memo : Option E.Memo) :
    Builder E × Option BuildError :=
  match E.groupHash target.diversifier gdPersonalization with
  | none => (b, some BuildError.invalidTargetAddress)
  | some g_d =>
    let rcm := E.rand b.rngPos
    let b1 := { b with rngPos := b.rngPos + 1,
                       value_balance := wrap64 (b.value_balance - value) }
    let note : Note E.Point :=
      { value := u64ofI64 value, g_d := g_d, pk_d := target.pk_d, r := rcm }
    ({ b1 with outputs := b1.outputs ++ [⟨ovk, target, note, memo.getD E.defaultMemo⟩] },
     none)

/-- `add_sapling_output` lifted to `Except`, as the `?` in `build` uses it. -/
def addOutErr (E : Ext) (b : Builder E) (ovk : E.Ovk) (target : PaymentAddress E.Point)
    (value : Int) : Except BuildError (Builder E) :=
  match addSaplingOutput E b ovk target value none with
  | (b1, none) => Except.ok b1
  | (_, some e) => Except.error e

/-- The change-output stage of `build` (source lines 166-193): when change is
positive, send it to the explicit change address (taken out of the builder),
else to the first spend's `(pk_d, diversifier)` with the `ovk` of the ZIP-32
key derived at `[32', coin_type', spends[0].account_id']`, else fail. -/
def changeStage (E : Ext) (b : Builder E) (master : E.Xsk) (change : Int) :
    Except BuildError (Builder E) :=
  if 0 < change then
    match b.change_address with
    | some ca =>
      addOutErr E { b with change_address := none } ca.1 ca.2 change
    | none =>
      match b.spends with
      | [] => Except.error BuildError.noChangeAddress
      | s0 :: _ =>
        let xsk := E.fromPath master
          [ChildIndex.hardened 32, ChildIndex.hardened b.coin_type,
           ChildIndex.hardened s0.account_id]
        let ovk := E.ovkOf xsk
        addOutErr E b ovk { pk_d := s0.note.pk_d, diversifier := s0.diversifier } change
  else
    Except.ok b

/-- The spend-description loop of `build`: per spend, derive the viewing key
from the proof-generation key, compute the nullifier at the witness position,
run the prover (threading the proving context), and emit a description with a
blank spend-auth signature. Prover failure aborts. -/
def spendLoop (E : Ext) (anchor : Nat) :
    E.Ctx → List (E.Xsk × SpendDescriptionInfo E) →
    Option (E.Ctx × List (SpendDesc E.Point E.Proof E.Sig))
  | ctx, [] => some (ctx, [])
  | ctx, (xsk, s) :: rest =>
    let pgk := E.pgkOf xsk
    let nullifier := nf E s.note (intoViewingKey E pgk) s.witness.position
    match E.spendProof ctx pgk s.diversifier s.note.r s.ar s.note.value anchor s.witness with
    | none => none
    | some (ctx1, zkproof, cv, rk) =>
      match spendLoop E anchor ctx1 rest with
      | none => none
      | some (ctx2, descs) =>
        some (ctx2,
          { cv, anchor, nullifier, rk, zkproof, spend_auth_sig := E.blankSig } :: descs)

/-- The output-description loop of `build`: per output, construct the
encryptor (its `esk` is the next RNG sample), run the (infallible) output
prover, compute `cmu`, and emit ciphertexts and the ephemeral key. -/
def outputLoop (E : Ext) :
    E.Ctx → Nat → List (OutputDescriptionInfo E) →
    E.Ctx × List (OutputDesc E.Point E.Proof)
  | ctx, _, [] => (ctx, [])
  | ctx, pos, o :: rest =>
    let encr := E.mkEnc o.ovk o.note o.toAddr o.memo (E.rand pos)
    let res := E.outputProof ctx (E.eskOf encr) o.toAddr o.note.r o.note.value
    let cmu := noteCm E o.note
    let encCt := E.encryptNotePlaintext encr
    let outCt := E.encryptOutgoingPlaintext encr res.2.2 cmu
    let tail := outputLoop E res.1 (pos + 1) rest
    (tail.1,
      { cv := res.2.2, cmu, ephemeral_key := E.epkOf encr,
        enc_ciphertext := encCt, out_ciphertext := outCt, zkproof := res.2.1 } :: tail.2)

/-- The tail of `build` after the change stage (source lines 196-313): ZIP-32
key derivation per spend, fresh proving context, anchor unwrap (a panic when
no spend ever set it), spend and output description loops, a single sighash
over the transaction with blank spend-auth signatures, then the spend-auth
signatures and the binding signature. -/
def buildRest (E : Ext) (b : Builder E) (consensusBranchId : Nat) (master : E.Xsk) :
    BuildResult (TransactionData E.Point E.Proof E.Sig) :=
  let spends := b.spends.map (fun s =>
    (E.fromPath master
      [ChildIndex.hardened 32, ChildIndex.hardened b.coin_type,
       ChildIndex.hardened s.account_id], s))
  let ctx := E.ctxNew
  match b.anchor with
  | none => BuildResult.panicked "anchor was set if spends were added"
  | some anchor =>
    match spendLoop E anchor ctx spends with
    | none => BuildResult.err BuildError.proverFailure
    | some (ctx1, spendDescs) =>
      let outRes := outputLoop E ctx1 b.rngPos b.outputs
      let mtx0 : TransactionData E.Point E.Proof E.Sig :=
        { value_balance := b.value_balance, shielded_spends := spendDescs,
          shielded_outputs := outRes.2, binding_sig := none }
      let sh := E.sigHash mtx0 consensusBranchId
      let signedSpends := List.zipWith
        (fun (p : E.Xsk × SpendDescriptionInfo E) (sd : SpendDesc E.Point E.Proof E.Sig) =>
          { sd with spend_auth_sig := E.spendSig (E.askOf p.1) p.2.ar sh })
        spends spendDescs
      match E.bindingSig outRes.1 b.value_balance sh with
      | none => BuildResult.err BuildError.bindingSigFailed
      | some bsig =>
        BuildResult.ok
          { mtx0 with shielded_spends := signedSpends, binding_sig := some bsig }

/-- `Builder::build`: the change check, the change-output stage, then the
proving/signing pipeline. -/
def build (E : Ext) (b : Builder E) (consensusBranchId : Nat) (master : E.Xsk) :
    BuildResult (TransactionData E.Point E.Proof E.Sig) :=
  let change := wrap64 (b.value_balance - b.fee)
  if change < 0 then
    BuildResult.err (BuildError.changeNegative change)
  else
    match changeStage E b master change with
    | Except.error e => BuildResult.err e
    | Except.ok b1 => buildRest E b1 consensusBranchId master

/-- `Builder::build_no_sign` (source lines 344-511): the source body is
token-for-token the same as `build`, spend-auth signing loop included. -/
def buildNoSign (E : Ext) (b : Builder E) (consensusBranchId : Nat) (master : E.Xsk) :
    BuildResult (TransactionData E.Point E.Proof E.Sig) :=
  let change := wrap64 (b.value_balance - b.fee)
  if change < 0 then
    BuildResult.err (BuildError.changeNegative change)
  else
    match changeStage E b master change with
    | Except.error e => BuildResult.err e
    | Except.ok b1 => buildRest E b1 consensusBranchId master

/-! ## Block scanner (zcash_client_backend/src/welding_rig/mod.rs) -/

/-- A protobuf `CompactOutput` (its three `bytes` fields). -/
structure CompactOutput where
  cmu : List Nat
  epk : List Nat
  ciphertext : List Nat
deriving DecidableEq

/-- `WalletShieldedOutput` (the `enc_ct` field is the 52-byte fragment the
source copies out of the ciphertext with `copy_from_slice`, which requires the
ciphertext to be exactly 52 bytes). -/
structure WalletShieldedOutput (E : Ext) where
  index : Nat
  cmu : Nat
  epk : E.Point
  enc_ct : List Nat
  account : Nat
  value : Nat

/-- Parsing `output.cmu`: `FrRepr::read_le` consumes the first 32 bytes
(failing on a shorter string), then `Fr::from_repr` rejects values at or above
the field order. -/
def frFromBytesLE (bytes : List Nat) : Option Nat :=
  if bytes.length < 32 then none
  else
    let n := leRead (bytes.take 32)
    if n < frModulus then some n else none

/-- `trial_decrypt`: the compact-note decryption oracle, reduced to the
recovered note value. -/
def trialDecrypt (E : Ext) (cmu : Nat) (epk : E.Point) (enc_ct : List Nat)
    (theIvk : Nat) : Option Nat :=
  E.decrypt theIvk epk cmu enc_ct

/-- The trial-decryption loop of `scan_output` over the enumerated viewing
keys: the first key that decrypts wins and its position is the account. -/
def scanLoop (E : Ext) (index : Nat) (cmu : Nat) (epk : E.Point) (ct : List Nat) :
    List Nat → Nat → Option (WalletShieldedOutput E)
  | [], _ => none
  | k :: rest, account =>
    match trialDecrypt E cmu epk ct k with
    | some value => some { index, cmu, epk, enc_ct := ct, account, value }
    | none => scanLoop E index cmu epk ct rest (account + 1)

/-- `scan_output`: parse `cmu` as a little-endian `Fr`, parse `epk` as a curve
point and insist on the prime-order subgroup, then trial-decrypt in input
order. -/
def scanOutput (E : Ext) (index : Nat) (o : CompactOutput) (ivks : List Nat) :
    Option (WalletShieldedOutput E) :=
  match frFromBytesLE o.cmu with
  | none => none
  | some cmu =>
    match E.readPoint o.epk with
    | none => none
    | some p =>
      match E.asPrimeOrder p with
      | none => none
      | some epk => scanLoop E index cmu epk o.ciphertext ivks 0

/-! ## Interleavings of builder mutations (claim C2) -/

/-- One builder mutation: an `add_sapling_spend` or an `add_sapling_output`
call with its arguments. -/
inductive BAction (E : Ext) where
  | spend (account_id : Nat) (d : List Nat) (note : Note E.Point) (ar : Nat)
      (w : IncrementalWitness)
  | output (ovk : E.Ovk) (target : PaymentAddress E.Point) (value : Int)
      (memo : Option E.Memo)

/-- Apply one mutation to the builder. -/
def applyAction (E : Ext) (b : Builder E) : BAction E → Builder E × Option BuildError
  | BAction.spend a d n ar w => addSaplingSpend E b a d n ar w
  | BAction.output ovk target v m => addSaplingOutput E b ovk target v m

/-- Run a sequence of mutations, requiring every call to succeed. -/
def runOk (E : Ext) : Builder E → List (BAction E) → Option (Builder E)
  | b, [] => some b
  | b, a :: rest =>
    match applyAction E b a with
    | (b1, none) => runOk E b1 rest
    | (_, some _) => none

/-- Sum of the spent note values (as integers) over a mutation sequence. -/
def spendTotal (E : Ext) : List (BAction E) → Int
  | [] => 0
  | BAction.spend _ _ n _ _ :: rest => (n.value : Int) + spendTotal E rest
  | BAction.output _ _ _ _ :: rest => spendTotal E rest

/-- Sum of the output amounts over a mutation sequence. -/
def outputTotal (E : Ext) : List (BAction E) → Int
  | [] => 0
  | BAction.spend _ _ _ _ _ :: rest => outputTotal E rest
  | BAction.output _ _ v _ :: rest => v + outputTotal E rest

/-! ## Concrete oracle instantiations for evaluation

A small environment used to evaluate the embedding at concrete inputs. The
point and key types are degenerate (this exercises only the orchestration
logic under verification, never the oracles' internals); `groupHash` and
`decrypt` are parameters so individual scenarios can choose which diversifiers
are valid and which keys decrypt. -/

def toyExt (gh : List Nat → List Nat → Option Unit)
    (dec : Nat → Unit → Nat → List Nat → Option Nat) : Ext where
  Point := Unit
  UPoint := Unit
  Xsk := Unit
  Ovk := Unit
  Proof := Unit
  Sig := Nat
  Ctx := Unit
  Enc := Unit
  Memo := Unit
  add := fun _ _ => ()
  mul := fun _ _ => ()
  gen := fun _ => ()
  enc := fun _ => List.replicate 32 0
  xCoord := fun _ => 1
  readPoint := fun _ => some ()
  asPrimeOrder := fun _ => some ()
  groupHash := gh
  pedersen := fun _ _ => ()
  blake2s := fun _ _ => List.replicate 32 0
  fromPath := fun _ _ => ()
  ovkOf := fun _ => ()
  pgkOf := fun _ => { ak := (), nsk := 0 }
  askOf := fun _ => 3
  ctxNew := ()
  spendProof := fun c _ _ _ _ _ _ _ => some (c, (), (), ())
  outputProof := fun c _ _ _ _ => (c, (), ())
  bindingSig := fun _ _ _ => some 9
  mkEnc := fun _ _ _ _ _ => ()
  eskOf := fun _ => 0
  epkOf := fun _ => ()
  encryptNotePlaintext := fun _ => List.replicate 580 0
  encryptOutgoingPlaintext := fun _ _ _ => List.replicate 80 0
  defaultMemo := ()
  sigHash := fun _ _ => List.replicate 32 0
  spendSig := fun _ _ _ => 7
  blankSig := 0
  decrypt := dec
  rand := fun _ => 5

/-- The everything-succeeds environment. -/
def toyOk : Ext := toyExt (fun _ _ => some ()) (fun _ _ _ _ => none)

/-- An environment whose group hash rejects every diversifier (the spec's
`Diversifier` invariant says such diversifiers exist). -/
def toyBadGd : Ext := toyExt (fun _ _ => none) (fun _ _ _ _ => none)

/-- An environment where exactly the viewing key `7` decrypts, with value 42. -/
def toyDec : Ext :=
  toyExt (fun _ _ => some ())
    (fun k _ _ _ => if k = 7 then some 42 else none)

/-- A trivially valid witness at position 0. -/
def toyWitness : IncrementalWitness := { root := 0, path := some { position := 0, authPath := [] } }

/-- A toy note of the given value. -/
def toyNote (v : Nat) : Note Unit := { value := v, g_d := (), pk_d := (), r := 0 }

/-! ## Theorems -/

/-- C1. `build` first computes `change = value_balance - fee` and, whenever
`change < 0`, returns `ChangeNegative(change)` without producing a
transaction; on a fresh `Builder::new(1)` with the default fee of 10000 the
error is `ChangeNegative(-10000)`, whose message renders exactly as
"Change is negative: -10000". -/
theorem build_changeNegative (E : Ext) (b : Builder E) (cb : Nat) (master : E.Xsk)
    (h : wrap64 (b.value_balance - b.fee) < 0) :
    build E b cb master
      = BuildResult.err (BuildError.changeNegative (wrap64 (b.value_balance - b.fee)))
    ∧ build E (Builder.new E 1) 1 master
      = BuildResult.err (BuildError.changeNegative (-10000))
    ∧ changeNegativeMessage (-10000) = "Change is negative: -10000" := by
  refine ⟨?_, rfl, rfl⟩
  simp only [build]
  rw [if_pos h]

theorem build_changeNegative_witness :
    build toyOk (Builder.new toyOk 1) 1 ()
      = BuildResult.err (BuildError.changeNegative (-10000)) :=
  (build_changeNegative toyOk (Builder.new toyOk 1) 1 () (by decide)).2.1

/-- C3. With an anchor already recorded, a spend whose witness root differs
fails with `AnchorMismatch (expected, got)` and returns the builder state
completely unchanged. -/
theorem addSpend_anchorMismatch (E : Ext) (b : Builder E) (aid : Nat) (d : List Nat)
    (note : Note E.Point) (ar : Nat) (w : IncrementalWitness) (a : Nat)
    (h1 : b.anchor = some a) (h2 : w.root ≠ a) :
    addSaplingSpend E b aid d note ar w = (b, some (BuildError.anchorMismatch a w.root)) := by
  simp only [addSaplingSpend, h1]
  rw [if_pos h2]

theorem addSpend_anchorMismatch_witness :
    addSaplingSpend toyOk { Builder.new toyOk 1 with anchor := some 0 } 0 []
        (toyNote 5) 0 { root := 1, path := none }
      = ({ Builder.new toyOk 1 with anchor := some 0 },
         some (BuildError.anchorMismatch 0 1)) :=
  addSpend_anchorMismatch toyOk { Builder.new toyOk 1 with anchor := some 0 } 0 []
    (toyNote 5) 0 { root := 1, path := none } 0 rfl (by decide)

/-- C10. `add_sapling_spend` is not atomic on witness-materialization failure:
when the anchor check passes but `witness.path()` fails, the call errors after
the value balance was bumped by the note value and (for a first spend) the
anchor was recorded. -/
theorem addSpend_mutates_on_path_failure (E : Ext) (b : Builder E) (aid : Nat)
    (d : List Nat) (note : Note E.Point) (ar : Nat) (w : IncrementalWitness)
    (h : b.anchor = none ∨ b.anchor = some w.root) (hp : w.path = none) :
    addSaplingSpend E b aid d note ar w =
      ({ b with anchor := some w.root,
                value_balance := wrap64 (b.value_balance + i64ofU64 note.value) },
       some BuildError.witnessPath) := by
  obtain ⟨ct, fee, vb, anch, sp, outs, ca, rp⟩ := b
  rcases h with h | h <;> simp only at h <;> subst h <;>
    simp [addSaplingSpend, addSpendCore, hp]

theorem addSpend_mutates_on_path_failure_witness :
    addSaplingSpend toyOk (Builder.new toyOk 1) 0 [] (toyNote 10) 0
        { root := 4, path := none }
      = ({ (Builder.new toyOk 1) with
           anchor := some 4,
           value_balance := wrap64 ((Builder.new toyOk 1).value_balance
             + i64ofU64 (toyNote 10).value) },
         some BuildError.witnessPath) :=
  addSpend_mutates_on_path_failure toyOk (Builder.new toyOk 1) 0 [] (toyNote 10) 0
    { root := 4, path := none } (Or.inl rfl) rfl

/-- C9. When no spend ever recorded an anchor and `build` gets past the change
handling without failing — change exactly 0, or positive change sent to an
explicit change address whose diversifier is valid — `build` panics at the
anchor unwrap instead of returning an error or a transaction; in particular
`Builder::new(1)` followed by `set_fee(0)` panics. -/
theorem build_panics_without_anchor (E : Ext) (b : Builder E) (cb : Nat) (master : E.Xsk)
    (hAnchor : b.anchor = none) (_hsp : b.spends = [])
    (h : wrap64 (b.value_balance - b.fee) = 0 ∨
         (0 < wrap64 (b.value_balance - b.fee) ∧
          ∃ ca, b.change_address = some ca ∧
            (E.groupHash ca.2.diversifier gdPersonalization).isSome)) :
    build E b cb master = BuildResult.panicked "anchor was set if spends were added"
    ∧ build E (setFee E (Builder.new E 1) 0) cb master
        = BuildResult.panicked "anchor was set if spends were added" := by
  refine ⟨?_, rfl⟩
  rcases h with h | ⟨hpos, ca, hca, hgd⟩
  · simp only [build, changeStage, h]
    norm_num [buildRest, hAnchor]
  · rcases Option.isSome_iff_exists.mp hgd with ⟨g, hg⟩
    simp only [build, changeStage, hca]
    rw [if_neg (by omega), if_pos hpos]
    simp only [addOutErr, addSaplingOutput, hg]
    simp [buildRest, hAnchor]

theorem build_panics_without_anchor_witness :
    build toyOk (setFee toyOk (Builder.new toyOk 1) 0) 1 ()
      = BuildResult.panicked "anchor was set if spends were added" :=
  (build_panics_without_anchor toyOk (setFee toyOk (Builder.new toyOk 1) 0) 1 ()
    rfl rfl (Or.inl (by decide))).1

/-- A successful `add_sapling_spend` bumps the value balance by
`note.value as i64` (wrapping). -/
theorem addSaplingSpend_ok_vb (E : Ext) (b b1 : Builder E) (aid : Nat) (d : List Nat)
    (note : Note E.Point) (ar : Nat) (w : IncrementalWitness)
    (h : addSaplingSpend E b aid d note ar w = (b1, none)) :
    b1.value_balance = wrap64 (b.value_balance + i64ofU64 note.value) := by
  rcases hA : b.anchor with _ | a
  · simp only [addSaplingSpend, hA, addSpendCore] at h
    rcases hP : w.path with _ | p <;>
      simp only [hP, Prod.mk.injEq] at h
    · exact absurd h.2 (by simp)
    · rw [← h.1]
  · simp only [addSaplingSpend, hA] at h
    by_cases hr : w.root ≠ a
    · rw [if_pos hr] at h
      simp only [Prod.mk.injEq] at h
      exact absurd h.2 (by simp)
    · rw [if_neg hr] at h
      simp only [addSpendCore] at h
      rcases hP : w.path with _ | p <;>
        simp only [hP, Prod.mk.injEq] at h
      · exact absurd h.2 (by simp)
      · rw [← h.1]

/-- A successful `add_sapling_output` decrements the value balance by the
output amount (wrapping). -/
theorem addSaplingOutput_ok_vb (E : Ext) (b b1 : Builder E) (ovk : E.Ovk)
    (target : PaymentAddress E.Point) (v : Int) (memo : Option E.Memo)
    (h : addSaplingOutput E b ovk target v memo = (b1, none)) :
    b1.value_balance = wrap64 (b.value_balance - v) := by
  unfold addSaplingOutput at h
  rcases hG : E.groupHash target.diversifier gdPersonalization with _ | g <;>
    rw [hG] at h <;> simp only [Prod.mk.injEq] at h
  · exact absurd h.2 (by simp)
  · rw [← h.1]

/-- Value-balance evolution over any successfully-run interleaving of spends
and outputs: the final balance is the wrapped (i64) signed total. -/
theorem runOk_value_balance (E : Ext) (acts : List (BAction E)) :
    ∀ b b' : Builder E, wrap64 b.value_balance = b.value_balance →
      runOk E b acts = some b' →
      b'.value_balance = wrap64 (b.value_balance + (spendTotal E acts - outputTotal E acts)) := by
  induction acts with
  | nil =>
    intro b b' hw h
    simp only [runOk, Option.some.injEq] at h
    subst h
    rw [spendTotal, outputTotal]
    rw [show b.value_balance + (0 - 0) = b.value_balance by ring, hw]
  | cons a rest ih =>
    intro b b' hw h
    cases a with
    | spend aid d n ar w =>
      simp only [runOk, applyAction] at h
      rcases happ : addSaplingSpend E b aid d n ar w with ⟨b1, e⟩
      rw [happ] at h
      cases e with
      | some e => simp at h
      | none =>
        have hvb := addSaplingSpend_ok_vb E b b1 aid d n ar w happ
        have hrec := ih b1 b' (by rw [hvb]; exact wrap64_wrap64 _) h
        rw [hrec, hvb, wrap64_add_left, spendTotal, outputTotal]
        rw [show b.value_balance + i64ofU64 n.value + (spendTotal E rest - outputTotal E rest)
              = b.value_balance + i64ofU64 n.value
                + (spendTotal E rest - outputTotal E rest) from rfl]
        rw [wrap64_i64ofU64_add]
        exact congrArg wrap64 (by ring)
    | output ovk target v m =>
      simp only [runOk, applyAction] at h
      rcases happ : addSaplingOutput E b ovk target v m with ⟨b1, e⟩
      rw [happ] at h
      cases e with
      | some e => simp at h
      | none =>
        have hvb := addSaplingOutput_ok_vb E b b1 ovk target v m happ
        have hrec := ih b1 b' (by rw [hvb]; exact wrap64_wrap64 _) h
        rw [hrec, hvb, wrap64_add_left, spendTotal, outputTotal]
        exact congrArg wrap64 (by ring)

/-- The single successful spend refuting C2 as stated: a note of value 2^63.
The `as i64` cast in `self.mtx.value_balance.0 += note.value as i64` wraps, so
the balance lands at -2^63, not at the claimed Σv − Σw = 2^63. (This input
exercises only the cast, which wraps in every Rust build profile.) -/
def c2Acts : List (BAction toyOk) :=
  [BAction.spend 0 [] (toyNote 9223372036854775808) 0 toyWitness]

/-- The builder state after running `c2Acts` from `Builder::new(1)`. -/
def c2After : Builder toyOk :=
  { coin_type := 1, fee := 10000, value_balance := -9223372036854775808,
    anchor := some 0,
    spends := [⟨0, [], toyNote 9223372036854775808, 0, { position := 0, authPath := [] }⟩],
    outputs := [], change_address := none, rngPos := 0 }

/-- C2, counterexample: the interleaving `c2Acts` succeeds, yet the resulting
value balance differs from Σ v_i − Σ w_j. -/
theorem valueBalance_claim_counterexample :
    runOk toyOk (Builder.new toyOk 1) c2Acts = some c2After
    ∧ c2After.value_balance ≠ spendTotal toyOk c2Acts - outputTotal toyOk c2Acts := by
  exact ⟨rfl, by decide⟩

/-- C2, amended: after any successfully-run interleaving of
`add_sapling_spend(value = v_i)` and `add_sapling_output(value = w_j)` from
`Builder::new`, the internal value balance equals `Σ v_i − Σ w_j` wrapped into
the `i64` range (so equals `Σ v_i − Σ w_j` itself whenever every intermediate
signed total fits in an `i64`). -/
theorem valueBalance_amended (E : Ext) (ct : Nat) (acts : List (BAction E))
    (b' : Builder E) (h : runOk E (Builder.new E ct) acts = some b') :
    b'.value_balance = wrap64 (spendTotal E acts - outputTotal E acts) := by
  have hres := runOk_value_balance E acts (Builder.new E ct) b'
    (show wrap64 0 = 0 by decide) h
  rw [hres]
  exact congrArg wrap64
    (show (0 : Int) + (spendTotal E acts - outputTotal E acts)
        = spendTotal E acts - outputTotal E acts by ring)

/-- A two-action interleaving for the amended-C2 witness: spend 6, output 4. -/
def c2WitActs : List (BAction toyOk) :=
  [BAction.spend 0 [] (toyNote 6) 0 toyWitness,
   BAction.output () { pk_d := (), diversifier := [] } 4 none]

/-- The builder state after running `c2WitActs` from `Builder::new(1)`. -/
def c2WitAfter : Builder toyOk :=
  { coin_type := 1, fee := 10000, value_balance := 2,
    anchor := some 0,
    spends := [⟨0, [], toyNote 6, 0, { position := 0, authPath := [] }⟩],
    outputs := [⟨(), { pk_d := (), diversifier := [] },
                 { value := 4, g_d := (), pk_d := (), r := 5 }, ()⟩],
    change_address := none, rngPos := 1 }

theorem valueBalance_amended_witness :
    runOk toyOk (Builder.new toyOk 1) c2WitActs = some c2WitAfter
    ∧ c2WitAfter.value_balance = wrap64 (spendTotal toyOk c2WitActs - outputTotal toyOk c2WitActs) :=
  ⟨rfl, valueBalance_amended toyOk 1 c2WitActs c2WitAfter rfl⟩

/-- The builder state after the auto-change stage appends its synthetic
output: value balance decremented by the change, one RNG draw consumed, and
one appended output of exactly the change value with no memo, targeted at
spend[0]'s `(pk_d, diversifier)` with the `ovk` of the ZIP-32 key at
`[32', coin_type', spend[0].account_id']`. -/
def changeBuilder (E : Ext) (b : Builder E) (master : E.Xsk)
    (s0 : SpendDescriptionInfo E) (g : E.Point) : Builder E :=
  let change := wrap64 (b.value_balance - b.fee)
  { b with
    value_balance := wrap64 (b.value_balance - change),
    rngPos := b.rngPos + 1,
    outputs := b.outputs ++
      [{ ovk := E.ovkOf (E.fromPath master
           [ChildIndex.hardened 32, ChildIndex.hardened b.coin_type,
            ChildIndex.hardened s0.account_id]),
         toAddr := { pk_d := s0.note.pk_d, diversifier := s0.diversifier },
         note := { value := u64ofI64 change, g_d := g,
                   pk_d := s0.note.pk_d, r := E.rand b.rngPos },
         memo := E.defaultMemo }] }

/-- A builder holding one spend whose (separately supplied, never validated)
diversifier can be invalid: positive change, no explicit change address. -/
def c4Builder : Builder toyBadGd :=
  { coin_type := 1, fee := 10000, value_balance := 20000, anchor := some 0,
    spends := [⟨0, [], toyNote 100, 0, { position := 0, authPath := [] }⟩],
    outputs := [], change_address := none, rngPos := 0 }

/-- C4, counterexample: with change 10000 > 0, no change address and one
spend, the claim requires the synthetic change output to be appended and the
build to proceed to proof creation; but when `g_d(spends[0].diversifier)` is
invalid (the environment's group hash rejects it), `build` instead fails with
`InvalidTargetAddress` inside the change stage, and no output is appended. -/
theorem changeOutput_claim_counterexample :
    build toyBadGd c4Builder 1 () = BuildResult.err BuildError.invalidTargetAddress := rfl

/-- C4, amended: in `build`, when change > 0 and no explicit change address is
set: with no spends, the result is `NoChangeAddress`; with a first spend whose
diversifier has no valid `g_d`, the result is `InvalidTargetAddress`; and with
a first spend whose diversifier yields `g_d = g`, the change stage returns the
builder extended (before any proof creation) with a synthetic output of
exactly the change value and no memo, targeted at spend[0]'s
`(pk_d, diversifier)`, with the outgoing viewing key of the ZIP-32 key derived
at the hardened path `[32', coin_type', spend[0].account_id']` from the
master key — and `build` continues as the proof/signature pipeline on exactly
that extended builder. -/
theorem changeOutput_amended (E : Ext) (b : Builder E) (cb : Nat) (master : E.Xsk)
    (hpos : 0 < wrap64 (b.value_balance - b.fee)) (hca : b.change_address = none) :
    (b.spends = [] → build E b cb master = BuildResult.err BuildError.noChangeAddress)
    ∧ ∀ s0 rest, b.spends = s0 :: rest →
        (E.groupHash s0.diversifier gdPersonalization = none →
          build E b cb master = BuildResult.err BuildError.invalidTargetAddress)
        ∧ ∀ g, E.groupHash s0.diversifier gdPersonalization = some g →
            changeStage E b master (wrap64 (b.value_balance - b.fee))
              = Except.ok (changeBuilder E b master s0 g)
            ∧ build E b cb master
              = buildRest E (changeBuilder E b master s0 g) cb master := by
  have hnn : ¬ wrap64 (b.value_balance - b.fee) < 0 := by omega
  refine ⟨?_, ?_⟩
  · intro hsp
    simp only [build]
    rw [if_neg hnn]
    simp only [changeStage, hca, hsp]
    rw [if_pos hpos]
  · intro s0 rest hsp
    constructor
    · intro hg
      simp only [build]
      rw [if_neg hnn]
      simp only [changeStage, hca, hsp]
      rw [if_pos hpos]
      simp only [addOutErr, addSaplingOutput, hg]
    · intro g hg
      have hcs : changeStage E b master (wrap64 (b.value_balance - b.fee))
          = Except.ok (changeBuilder E b master s0 g) := by
        simp only [changeStage, hca, hsp]
        rw [if_pos hpos]
        simp only [addOutErr, addSaplingOutput, hg, changeBuilder, Option.getD_none]
      refine ⟨hcs, ?_⟩
      simp only [build]
      rw [if_neg hnn, hcs]

/-- The single spend record of the C4 witness. -/
def c4WitSpend : SpendDescriptionInfo toyOk :=
  ⟨0, [], toyNote 100, 0, { position := 0, authPath := [] }⟩

/-- The C4 witness builder: change 10000 > 0, no change address, one spend,
in the environment whose group hash accepts every diversifier. -/
def c4WitBuilder : Builder toyOk :=
  { coin_type := 1, fee := 10000, value_balance := 20000, anchor := some 0,
    spends := [c4WitSpend], outputs := [], change_address := none, rngPos := 0 }

theorem changeOutput_amended_witness :
    changeStage toyOk c4WitBuilder ()
        (wrap64 (c4WitBuilder.value_balance - c4WitBuilder.fee))
      = Except.ok (changeBuilder toyOk c4WitBuilder () c4WitSpend ())
    ∧ build toyOk c4WitBuilder 1 ()
      = buildRest toyOk (changeBuilder toyOk c4WitBuilder () c4WitSpend ()) 1 () :=
  ((changeOutput_amended toyOk c4WitBuilder 1 () (by decide) rfl).2
    c4WitSpend [] rfl).2 () rfl

theorem leRead_cons (b : Nat) (l : List Nat) : leRead (b :: l) = b + 256 * leRead l := rfl

theorem leRead_append (xs ys : List Nat) :
    leRead (xs ++ ys) = leRead xs + 256 ^ xs.length * leRead ys := by
  induction xs with
  | nil => simp [leRead]
  | cons b xs ih =>
    simp only [List.cons_append, leRead_cons, ih, List.length_cons]
    ring

theorem leRead_lt (l : List Nat) (h : ∀ b ∈ l, b < 256) :
    leRead l < 256 ^ l.length := by
  induction l with
  | nil => decide
  | cons b l ih =>
    have hb : b < 256 := h b (List.mem_cons_self b l)
    have hl : leRead l < 256 ^ l.length := ih (fun x hx => h x (List.mem_cons_of_mem _ hx))
    simp only [leRead_cons, List.length_cons]
    calc b + 256 * leRead l < 256 + 256 * leRead l := by omega
      _ = 256 * (leRead l + 1) := by ring
      _ ≤ 256 * 256 ^ l.length := Nat.mul_le_mul_left 256 hl
      _ = 256 ^ (l.length + 1) := by ring

/-- Clearing the high five bits of byte 31 of a 32-byte string bounds its
little-endian value by 2^251. -/
theorem maskIvkBytes_leRead_lt (l : List Nat) (hlen : l.length = 32)
    (hlt : ∀ b ∈ l, b < 256) : leRead (maskIvkBytes l) < 2 ^ 251 := by
  have h31 : 31 < l.length := by omega
  have hdrop : l.drop 32 = [] := List.drop_eq_nil_of_le (by omega)
  have hset : l.set 31 (l.getD 31 0 % 8) = l.take 31 ++ [l.getD 31 0 % 8] := by
    rw [List.set_eq_take_cons_drop _ h31, hdrop]
  have htl : (l.take 31).length = 31 := by
    rw [List.length_take]; omega
  have hta : leRead (l.take 31) < 256 ^ 31 := by
    have h := leRead_lt (l.take 31) (fun b hb => hlt b (List.take_subset _ _ hb))
    rwa [htl] at h
  have hone : leRead [l.getD 31 0 % 8] = l.getD 31 0 % 8 := by
    simp [leRead]
  rw [maskIvkBytes, hset, leRead_append, htl, hone]
  have hmul : 256 ^ 31 * (l.getD 31 0 % 8) ≤ 256 ^ 31 * 7 :=
    Nat.mul_le_mul_left (256 ^ 31) (by omega)
  have h8 : (256 : Nat) ^ 31 + 256 ^ 31 * 7 = 2 ^ 251 := by norm_num
  omega

/-- C5. `ViewingKey::ivk` is exactly the BLAKE2s-256 ("Zcashivk", empty key)
digest of `ak_enc(32) || nk_enc(32)` with the high five bits of byte 31
cleared, read little-endian; it is below 2^251, always parses as a valid `Fs`
element (so the source's `.expect("should be a valid scalar")` never fires),
and is deterministic in `(ak, nk)`. -/
theorem ivk_spec (E : Ext) (hwf : ExtWF E) (vk : ViewingKey E.Point) :
    ivk E vk
      = leRead (maskIvkBytes (E.blake2s ivkPersonalization (E.enc vk.ak ++ E.enc vk.nk)))
    ∧ ivk E vk < 2 ^ 251
    ∧ fsFromRepr (ivk E vk) = some (ivk E vk)
    ∧ ∀ vk2 : ViewingKey E.Point, vk2.ak = vk.ak → vk2.nk = vk.nk →
        ivk E vk2 = ivk E vk := by
  have hb : ivk E vk < 2 ^ 251 :=
    maskIvkBytes_leRead_lt (E.blake2s ivkPersonalization (E.enc vk.ak ++ E.enc vk.nk))
      (hwf.blake_len _ _) (hwf.blake_lt _ _)
  refine ⟨rfl, hb, ?_, ?_⟩
  · rw [fsFromRepr, if_pos]
    calc ivk E vk < 2 ^ 251 := hb
      _ < fsModulus := by norm_num [fsModulus]
  · intro vk2 hak hnk
    rw [ivk, ivk, hak, hnk]

/-- The degenerate environment satisfies the external byte contracts. -/
theorem toyWF : ExtWF toyOk where
  blake_len := fun _ _ => by
    show (List.replicate 32 0).length = 32
    simp
  blake_lt := fun _ _ b hb => by
    have hb2 : b ∈ List.replicate 32 0 := hb
    rw [List.eq_of_mem_replicate hb2]
    omega
  enc_len := fun _ => by
    show (List.replicate 32 0).length = 32
    simp
  enc_lt := fun _ b hb => by
    have hb2 : b ∈ List.replicate 32 0 := hb
    rw [List.eq_of_mem_replicate hb2]
    omega

theorem ivk_spec_witness :
    fsFromRepr (ivk toyOk { ak := (), nk := () })
      = some (ivk toyOk { ak := (), nk := () }) :=
  (ivk_spec toyOk toyWF { ak := (), nk := () }).2.2.1

/-- C6. `Note::nf` is the 32-byte BLAKE2s ("Zcash_nf") digest of
`nk_enc(32) || rho_enc(32)`, where `rho` is the full note-commitment point —
`r·G_NC` plus the Pedersen hash of `value_LE_64 || g_d_enc || pk_d_enc`
(bits LSB-first per byte) — translated by `position·G_NP`; and the same note,
viewing key and position always yield the same nullifier. -/
theorem nf_spec (E : Ext) (hwf : ExtWF E) (n : Note E.Point)
    (vk : ViewingKey E.Point) (position : Nat) :
    nf E n vk position
      = E.blake2s nfPersonalization
          (E.enc vk.nk ++ E.enc (E.add
            (E.add (E.mul (E.gen FixedGenerators.NoteCommitmentRandomness) n.r)
              (E.pedersen PedersenPersonalization.NoteCommitment
                (bytesToBits (u64LE n.value ++ E.enc n.g_d ++ E.enc n.pk_d))))
            (E.mul (E.gen FixedGenerators.NullifierPosition) position)))
    ∧ (nf E n vk position).length = 32
    ∧ ∀ (n2 : Note E.Point) (vk2 : ViewingKey E.Point) (position2 : Nat),
        n2 = n → vk2.nk = vk.nk → position2 = position →
        nf E n2 vk2 position2 = nf E n vk position := by
  refine ⟨rfl, hwf.blake_len _ _, ?_⟩
  intro n2 vk2 position2 hn hnk hpos
  subst hn
  subst hpos
  rw [nf, nf, hnk]

theorem nf_spec_witness :
    (nf toyOk (toyNote 1) { ak := (), nk := () } 0).length = 32 :=
  (nf_spec toyOk toyWF (toyNote 1) { ak := (), nk := () } 0).2.1

theorem scanLoop_none (E : Ext) (idx cmu : Nat) (epk : E.Point) (ct : List Nat) :
    ∀ (ivks : List Nat) (acct : Nat),
      (∀ k ∈ ivks, E.decrypt k epk cmu ct = none) →
      scanLoop E idx cmu epk ct ivks acct = none := by
  intro ivks
  induction ivks with
  | nil => intro acct _; rfl
  | cons k rest ih =>
    intro acct h
    have hk : E.decrypt k epk cmu ct = none := h k (List.mem_cons_self k rest)
    simp only [scanLoop, trialDecrypt, hk]
    exact ih (acct + 1) (fun x hx => h x (List.mem_cons_of_mem _ hx))

theorem scanLoop_first (E : Ext) (idx cmu : Nat) (epk : E.Point) (ct : List Nat) :
    ∀ (ivks : List Nat) (i acct v : Nat) (hi : i < ivks.length),
      (∀ j (hj : j < i), E.decrypt (ivks.get ⟨j, lt_trans hj hi⟩) epk cmu ct = none) →
      E.decrypt (ivks.get ⟨i, hi⟩) epk cmu ct = some v →
      scanLoop E idx cmu epk ct ivks acct
        = some { index := idx, cmu, epk, enc_ct := ct, account := acct + i, value := v } := by
  intro ivks
  induction ivks with
  | nil =>
    intro i acct v hi _ _
    exact absurd hi (by simp)
  | cons k rest ih =>
    intro i acct v hi hprev hv
    cases i with
    | zero =>
      have hk : E.decrypt k epk cmu ct = some v := hv
      simp only [scanLoop, trialDecrypt, hk, Nat.add_zero]
    | succ i2 =>
      have hk : E.decrypt k epk cmu ct = none := by
        have h0 := hprev 0 (Nat.succ_pos i2)
        exact h0
      simp only [scanLoop, trialDecrypt, hk]
      have hi2 : i2 < rest.length := Nat.lt_of_succ_lt_succ hi
      have hrec := ih i2 (acct + 1) v hi2
        (fun j hj => hprev (j + 1) (Nat.succ_lt_succ hj))
        hv
      rw [hrec]
      have hacc : acct + 1 + i2 = acct + (i2 + 1) := by omega
      rw [hacc]

theorem scanLoop_enc_ct (E : Ext) (idx cmu : Nat) (epk : E.Point) (ct : List Nat) :
    ∀ (ivks : List Nat) (acct : Nat) (w : WalletShieldedOutput E),
      scanLoop E idx cmu epk ct ivks acct = some w → w.enc_ct = ct := by
  intro ivks
  induction ivks with
  | nil => intro acct w h; exact absurd h (by simp [scanLoop])
  | cons k rest ih =>
    intro acct w h
    simp only [scanLoop, trialDecrypt] at h
    rcases hk : E.decrypt k epk cmu ct with _ | v <;> rw [hk] at h
    · exact ih (acct + 1) w h
    · simp only [Option.some.injEq] at h
      rw [← h]

/-- C7. `scan_output` returns `None` when `cmu` fails to parse as a
little-endian `Fr` or `epk` fails to parse as a prime-order curve point;
otherwise it trial-decrypts against the given ivks in input order: the first
ivk that decrypts wins, yielding its index as the account together with the
decrypted value, the output's index, `cmu`, `epk` and the 52-byte ciphertext
fragment; if no ivk decrypts, the result is `None`. -/
theorem scanOutput_spec (E : Ext) (idx : Nat) (o : CompactOutput) (ivks : List Nat)
    (hlen : o.ciphertext.length = 52) :
    (frFromBytesLE o.cmu = none → scanOutput E idx o ivks = none)
    ∧ ∀ cmu, frFromBytesLE o.cmu = some cmu →
        (E.readPoint o.epk = none → scanOutput E idx o ivks = none)
        ∧ ∀ p, E.readPoint o.epk = some p →
            (E.asPrimeOrder p = none → scanOutput E idx o ivks = none)
            ∧ ∀ epk, E.asPrimeOrder p = some epk →
                ((∀ k ∈ ivks, E.decrypt k epk cmu o.ciphertext = none) →
                  scanOutput E idx o ivks = none)
                ∧ (∀ i v (hi : i < ivks.length),
                    (∀ j (hj : j < i),
                      E.decrypt (ivks.get ⟨j, lt_trans hj hi⟩) epk cmu o.ciphertext = none) →
                    E.decrypt (ivks.get ⟨i, hi⟩) epk cmu o.ciphertext = some v →
                    scanOutput E idx o ivks
                      = some { index := idx, cmu, epk, enc_ct := o.ciphertext,
                               account := i, value := v })
                ∧ ∀ w, scanOutput E idx o ivks = some w → w.enc_ct.length = 52 := by
  constructor
  · intro h
    simp only [scanOutput, h]
  · intro cmu hcmu
    constructor
    · intro h
      simp only [scanOutput, hcmu, h]
    · intro p hp
      constructor
      · intro h
        simp only [scanOutput, hcmu, hp, h]
      · intro epk hepk
        refine ⟨?_, ?_, ?_⟩
        · intro h
          simp only [scanOutput, hcmu, hp, hepk]
          exact scanLoop_none E idx cmu epk o.ciphertext ivks 0 h
        · intro i v hi hprev hv
          simp only [scanOutput, hcmu, hp, hepk]
          have h := scanLoop_first E idx cmu epk o.ciphertext ivks i 0 v hi hprev hv
          rw [h]
          have hz : 0 + i = i := by omega
          rw [hz]
        · intro w hw
          simp only [scanOutput, hcmu, hp, hepk] at hw
          rw [scanLoop_enc_ct E idx cmu epk o.ciphertext ivks 0 w hw]
          exact hlen

/-- The concrete compact output of the C7 witness. -/
def c7Out : CompactOutput :=
  { cmu := List.replicate 32 0, epk := List.replicate 32 0,
    ciphertext := List.replicate 52 1 }

theorem scanOutput_spec_witness :
    scanOutput toyDec 3 c7Out [5, 7]
      = some { index := 3, cmu := 0, epk := (), enc_ct := List.replicate 52 1,
               account := 1, value := 42 } :=
  (((((scanOutput_spec toyDec 3 c7Out [5, 7] (by simp [c7Out])).2
      0 rfl).2 () rfl).2 () rfl).2.1) 1 42 (by decide)
    (by
      intro j hj
      have hj0 : j = 0 := by omega
      subst hj0
      rfl)
    rfl

theorem spendLoop_length (E : Ext) (anchor : Nat) :
    ∀ (l : List (E.Xsk × SpendDescriptionInfo E)) (ctx ctx2 : E.Ctx)
      (descs : List (SpendDesc E.Point E.Proof E.Sig)),
      spendLoop E anchor ctx l = some (ctx2, descs) → descs.length = l.length := by
  intro l
  induction l with
  | nil =>
    intro ctx ctx2 descs h
    simp only [spendLoop, Option.some.injEq, Prod.mk.injEq] at h
    rw [← h.2]
    rfl
  | cons x rest ih =>
    intro ctx ctx2 descs h
    rcases x with ⟨xsk, s⟩
    simp only [spendLoop] at h
    rcases hp : E.spendProof ctx (E.pgkOf xsk) s.diversifier s.note.r s.ar s.note.value
        anchor s.witness with _ | r
    · simp [hp] at h
    · rcases r with ⟨ctx1, prf, cv, rk⟩
      simp only [hp] at h
      rcases hr : spendLoop E anchor ctx1 rest with _ | pr
      · simp [hr] at h
      · rcases pr with ⟨ctxr, descsr⟩
        simp only [hr, Option.some.injEq, Prod.mk.injEq] at h
        simp only [← h.2, List.length_cons, ih ctx1 ctxr descsr hr]

theorem addOutErr_preserves (E : Ext) (b : Builder E) (ovk : E.Ovk)
    (target : PaymentAddress E.Point) (v : Int) (b1 : Builder E)
    (h : addOutErr E b ovk target v = Except.ok b1) :
    b1.spends = b.spends ∧ b1.coin_type = b.coin_type ∧ b1.anchor = b.anchor := by
  simp only [addOutErr, addSaplingOutput] at h
  rcases hg : E.groupHash target.diversifier gdPersonalization with _ | g <;>
    rw [hg] at h <;> simp only [Except.ok.injEq] at h
  · exact absurd h (by simp)
  · rw [← h]
    exact ⟨rfl, rfl, rfl⟩

theorem changeStage_preserves (E : Ext) (b : Builder E) (master : E.Xsk) (c : Int)
    (b1 : Builder E) (h : changeStage E b master c = Except.ok b1) :
    b1.spends = b.spends ∧ b1.coin_type = b.coin_type ∧ b1.anchor = b.anchor := by
  unfold changeStage at h
  by_cases hc : 0 < c
  · rw [if_pos hc] at h
    rcases hca : b.change_address with _ | ca <;> simp only [hca] at h
    · rcases hsp : b.spends with _ | ⟨s0, rest⟩ <;> simp only [hsp] at h
      · exact absurd h (by simp)
      · have hpr := addOutErr_preserves E b _ _ _ b1 h
        rw [hsp] at hpr
        exact hpr
    · have hpr := addOutErr_preserves E { b with change_address := none } ca.1 ca.2 c b1 h
      exact hpr
  · rw [if_neg hc] at h
    simp only [Except.ok.injEq] at h
    rw [← h]
    exact ⟨rfl, rfl, rfl⟩

theorem map_sig_zipWith (E : Ext) (sh : List Nat) :
    ∀ (l1 : List (E.Xsk × SpendDescriptionInfo E))
      (l2 : List (SpendDesc E.Point E.Proof E.Sig)),
      l1.length = l2.length →
      (List.zipWith
          (fun p sd => { sd with spend_auth_sig := E.spendSig (E.askOf p.1) p.2.ar sh })
          l1 l2).map (fun sd => sd.spend_auth_sig)
        = l1.map (fun p => E.spendSig (E.askOf p.1) p.2.ar sh) := by
  intro l1
  induction l1 with
  | nil => intro l2 _; rfl
  | cons x rest ih =>
    intro l2 h
    cases l2 with
    | nil => exact absurd h (by simp)
    | cons y rest2 =>
      simp only [List.zipWith_cons_cons, List.map_cons]
      rw [ih rest2 (by simpa using h)]

/-- C8. `build_no_sign` returns exactly the same result as `build` on every
input; in particular a successful `build_no_sign` still carries, on every
spend description, the spend-auth signature computed by `spend_sig` from the
derived key's `ask`, the spend's `ar` and the (single, common) sighash —
nothing is left blank. -/
theorem buildNoSign_eq_build (E : Ext) (b : Builder E) (cb : Nat) (master : E.Xsk) :
    buildNoSign E b cb master = build E b cb master
    ∧ ∀ tx, buildNoSign E b cb master = BuildResult.ok tx →
        ∃ sh, tx.shielded_spends.map (fun sd => sd.spend_auth_sig)
          = b.spends.map (fun s => E.spendSig
              (E.askOf (E.fromPath master
                [ChildIndex.hardened 32, ChildIndex.hardened b.coin_type,
                 ChildIndex.hardened s.account_id])) s.ar sh) := by
  refine ⟨rfl, ?_⟩
  intro tx htx
  have htx2 : build E b cb master = BuildResult.ok tx := htx
  unfold build at htx2
  by_cases hc : wrap64 (b.value_balance - b.fee) < 0
  · rw [if_pos hc] at htx2
    simp at htx2
  · rw [if_neg hc] at htx2
    split at htx2
    · simp at htx2
    · rename_i b1 hcs
      obtain ⟨hsp, hct, _⟩ := changeStage_preserves E b master _ b1 hcs
      simp only [buildRest] at htx2
      split at htx2
      · simp at htx2
      · rename_i anchor hA
        split at htx2
        · simp at htx2
        · rename_i ctx1 sds hSL
          split at htx2
          · simp at htx2
          · rename_i bsig hBS
            rcases htx2 with ⟨⟩
            refine ⟨E.sigHash
              { value_balance := b1.value_balance, shielded_spends := sds,
                shielded_outputs := (outputLoop E ctx1 b1.rngPos b1.outputs).2,
                binding_sig := none } cb, ?_⟩
            have hlen : (b1.spends.map (fun s =>
                (E.fromPath master
                  [ChildIndex.hardened 32, ChildIndex.hardened b1.coin_type,
                   ChildIndex.hardened s.account_id], s))).length = sds.length := by
              rw [spendLoop_length E anchor _ E.ctxNew ctx1 sds hSL]
            have hmap := map_sig_zipWith E
              (E.sigHash
                { value_balance := b1.value_balance, shielded_spends := sds,
                  shielded_outputs := (outputLoop E ctx1 b1.rngPos b1.outputs).2,
                  binding_sig := none } cb)
              (b1.spends.map (fun s =>
                (E.fromPath master
                  [ChildIndex.hardened 32, ChildIndex.hardened b1.coin_type,
                   ChildIndex.hardened s.account_id], s)))
              sds hlen
            simp only [hmap, List.map_map]
            rw [hsp, hct]
            rfl

/-- The single spend of the C8 witness scenario. -/
def c8Spend : SpendDescriptionInfo toyOk :=
  ⟨0, [], toyNote 3, 11, { position := 0, authPath := [] }⟩

/-- A builder that builds successfully in the degenerate environment. -/
def c8Builder : Builder toyOk :=
  { coin_type := 1, fee := 0, value_balance := 0, anchor := some 0,
    spends := [c8Spend], outputs := [], change_address := none, rngPos := 0 }

/-- The transaction `build`/`build_no_sign` produce from `c8Builder`. -/
def c8Tx : TransactionData toyOk.Point toyOk.Proof toyOk.Sig :=
  { value_balance := 0,
    shielded_spends := [{ cv := (), anchor := 0, nullifier := List.replicate 32 0,
                          rk := (), zkproof := (), spend_auth_sig := (7 : Nat) }],
    shielded_outputs := [], binding_sig := some (9 : Nat) }

theorem buildNoSign_eq_build_witness :
    buildNoSign toyOk c8Builder 1 () = build toyOk c8Builder 1 ()
    ∧ ∃ sh, c8Tx.shielded_spends.map (fun sd => sd.spend_auth_sig)
        = c8Builder.spends.map (fun s => toyOk.spendSig
            (toyOk.askOf (toyOk.fromPath ()
              [ChildIndex.hardened 32, ChildIndex.hardened c8Builder.coin_type,
               ChildIndex.hardened s.account_id])) s.ar sh) :=
  ⟨(buildNoSign_eq_build toyOk c8Builder 1 ()).1,
   (buildNoSign_eq_build toyOk c8Builder 1 ()).2 c8Tx (by rfl)⟩

end Librustzcash
